import Mathlib

/-!
# The table widget of src/gui/table.cpp

A shallow embedding of `GuiTable` and of its per-cell helper
`GuiTableActionListener`.

* C++ `int` values are mathematical integers (`Int`).  Signed overflow is
  undefined behaviour in C++, so the embedding describes the executions in
  which no arithmetic overflows.
* A pointer is an `Option`: `none` is `NULL`.
* A member function that dereferences a pointer or divides returns an
  `Except Fault _`: the fault is the execution that has no defined result.
* Calls on objects other than the table (cell widgets, the model's listener
  set, the allocator, the widget base class) are recorded, in order, in the
  `events` field of the table state.
-/

namespace Mana

/-! ## Framework objects -/

/-- The `gcn::Rectangle` of the widget toolkit: position and extent. -/
structure Rectangle where
  x : Int
  y : Int
  width : Int
  height : Int
deriving DecidableEq, Repr

/-- The toolkit's `gcn::Rectangle::isPointInRect`. -/
def Rectangle.isPointInRect (r : Rectangle) (x y : Int) : Bool :=
  decide (x ≥ r.x) && decide (y ≥ r.y)
    && decide (x < r.x + r.width) && decide (y < r.y + r.height)

/-- A `gcn::Widget` object as the table sees it: its identity, whether it is
focusable, and its current dimension rectangle. -/
structure Widget where
  ident : Nat
  focusable : Bool
  dimension : Rectangle
deriving DecidableEq, Repr

/-- Modelled from the spec: the `TableModel` interface, declared in
table_model.h, which is not among the sources.  It exposes row and column
counts, the per-cell widget lookup, the row height, the per-column width, and
(through `ident`, the identity of the model object) a listener registration
mechanism. -/
structure TableModel where
  ident : Nat
  getRows : Int
  getColumns : Int
  getRowHeight : Int
  getColumnWidth : Int → Int
  getElementAt : Int → Int → Option Widget

/-- The executions of a member function that have no defined result. -/
inductive Fault where
  | nullDereference
  | divisionByZero
deriving DecidableEq, Repr

/-- The data members of a `GuiTableActionListener` (`mTable` is always the
table that owns the list). -/
structure GuiTableActionListener where
  mRow : Int
  mColumn : Int
  mWidget : Option Widget
deriving DecidableEq, Repr

/-- Calls the table makes on other objects. -/
inductive Event where
  | newForwarder (l : GuiTableActionListener)
  | deleteForwarder (l : GuiTableActionListener)
  | addActionListener (w : Widget) (l : GuiTableActionListener)
  | removeActionListener (w : Widget) (l : GuiTableActionListener)
  | setParent (w : Widget) (toTable : Bool)
  | widgetSetFocusHandler (w : Widget) (handler : Option Nat)
  | removeListener (model : Nat)
  | installListener (model : Nat)
  | distributeActionEvent
  | addMouseListener
  | addKeyListener
deriving DecidableEq, Repr

/-- The state of a `GuiTable`: its data members, the part of the inherited
`gcn::Widget` state the code touches, and the trace of outgoing calls. -/
structure GuiTable where
  mLinewiseMode : Bool
  mModel : Option TableModel
  mSelectedRow : Int
  mSelectedColumn : Int
  mTopWidget : Option Widget
  action_listeners : List GuiTableActionListener
  mWidth : Int
  mHeight : Int
  mFocusHandler : Option Nat
  events : List Event

/-- The button of a `gcn::MouseEvent`. -/
inductive MouseButton where
  | LEFT
  | RIGHT
  | MIDDLE
deriving DecidableEq, Repr

/-- The part of a `gcn::MouseEvent` the table reads. -/
structure MouseEvent where
  getButton : MouseButton
  getX : Int
  getY : Int
deriving DecidableEq, Repr

/-- The values `i` takes in `for (int i = 0; i < n; ++i)`. -/
def loopIndices (n : Int) : List Int :=
  (List.range n.toNat).map Int.ofNat

/-! ## GuiTableActionListener -/

/-- Constructor `GuiTableActionListener::GuiTableActionListener`, reached
through `new`: the outgoing calls it makes. -/
def GuiTableActionListener.createEvents (l : GuiTableActionListener) : List Event :=
  Event.newForwarder l ::
    (match l.mWidget with
     | some widget => [Event.addActionListener widget l, Event.setParent widget true]
     | none => [])

/-- Destructor `GuiTableActionListener::~GuiTableActionListener`, reached
through `delete`: the outgoing calls it makes. -/
def GuiTableActionListener.destroyEvents (l : GuiTableActionListener) : List Event :=
  (match l.mWidget with
   | some widget => [Event.removeActionListener widget l, Event.setParent widget false]
   | none => []) ++ [Event.deleteForwarder l]

/-! ## GuiTable -/

namespace GuiTable

/-- `GuiTable::setSelected`. -/
def setSelected (t : GuiTable) (row column : Int) : GuiTable :=
  { t with mSelectedColumn := column, mSelectedRow := row }

/-- `GuiTable::getRowHeight`. -/
def getRowHeight (t : GuiTable) : Int :=
  match t.mModel with
  | some m => m.getRowHeight + 1
  | none => 0

/-- `GuiTable::getColumnWidth`. -/
def getColumnWidth (t : GuiTable) (i : Int) : Int :=
  match t.mModel with
  | some m => m.getColumnWidth i + 1
  | none => 0

/-- `GuiTable::recomputeDimensions`. -/
def recomputeDimensions (t : GuiTable) : Except Fault GuiTable :=
  match t.mModel with
  | none => .error Fault.nullDereference
  | some m =>
    let rows_nr := m.getRows
    let columns_nr := m.getColumns
    let selectedRow := if t.mSelectedRow ≥ rows_nr then rows_nr - 1 else t.mSelectedRow
    let selectedColumn :=
      if t.mSelectedColumn ≥ columns_nr then columns_nr - 1 else t.mSelectedColumn
    let width := (loopIndices columns_nr).foldl (fun width i => width + t.getColumnWidth i) 0
    let height := t.getRowHeight * rows_nr
    .ok { t with
          mSelectedRow := selectedRow
          mSelectedColumn := selectedColumn
          mWidth := width
          mHeight := height }

/-- `GuiTable::uninstallActionListeners`. -/
def uninstallActionListeners (t : GuiTable) : GuiTable :=
  { t with
    events := t.events ++ t.action_listeners.flatMap GuiTableActionListener.destroyEvents
    action_listeners := [] }

/-- The forwarders the nested loops of `installActionListeners` create for
the model `m`, in creation order. -/
def newActionListeners (m : TableModel) : List GuiTableActionListener :=
  (loopIndices m.getRows).flatMap fun row =>
    (loopIndices m.getColumns).map fun column =>
      { mRow := row, mColumn := column, mWidget := m.getElementAt row column }

/-- The calls `GuiTable::_setFocusHandler` makes on the cell widgets. -/
def focusHandlerEvents (mModel : Option TableModel) (focusHandler : Option Nat) :
    List Event :=
  match mModel with
  | none => []
  | some m =>
    (loopIndices m.getRows).flatMap fun r =>
      (loopIndices m.getColumns).flatMap fun c =>
        match m.getElementAt r c with
        | some w => [Event.widgetSetFocusHandler w focusHandler]
        | none => []

/-- `GuiTable::_setFocusHandler`. -/
def _setFocusHandler (t : GuiTable) (focusHandler : Option Nat) : GuiTable :=
  { t with
    mFocusHandler := focusHandler
    events := t.events ++ focusHandlerEvents t.mModel focusHandler }

/-- `GuiTable::installActionListeners`. -/
def installActionListeners (t : GuiTable) : Except Fault GuiTable :=
  match t.mModel with
  | none => .error Fault.nullDereference
  | some m =>
    let created := newActionListeners m
    let t1 : GuiTable :=
      { t with
        action_listeners := t.action_listeners ++ created
        events := t.events ++ created.flatMap GuiTableActionListener.createEvents }
    .ok (t1._setFocusHandler t1.mFocusHandler)

/-- `GuiTable::setModel`. -/
def setModel (t : GuiTable) (new_model : Option TableModel) : Except Fault GuiTable :=
  let t1 : GuiTable :=
    match t.mModel with
    | some old =>
      let u := t.uninstallActionListeners
      { u with events := u.events ++ [Event.removeListener old.ident] }
    | none => t
  let t2 : GuiTable := { t1 with mModel := new_model }
  match t2.installActionListeners with
  | .error e => .error e
  | .ok t3 =>
    match new_model with
    | none => .error Fault.nullDereference
    | some m =>
      recomputeDimensions { t3 with events := t3.events ++ [Event.installListener m.ident] }

/-- Constructor `GuiTable::GuiTable`. -/
def create (initial_model : Option TableModel) : Except Fault GuiTable :=
  let t0 : GuiTable :=
    { mLinewiseMode := false
      mModel := none
      mSelectedRow := 0
      mSelectedColumn := 0
      mTopWidget := none
      action_listeners := []
      mWidth := 0
      mHeight := 0
      mFocusHandler := none
      events := [] }
  match t0.setModel initial_model with
  | .error e => .error e
  | .ok t1 => .ok { t1 with events := t1.events ++ [Event.addMouseListener, Event.addKeyListener] }

/-- `GuiTable::getRowForY`. -/
def getRowForY (t : GuiTable) (y : Int) : Except Fault Int :=
  if t.getRowHeight = 0 then .error Fault.divisionByZero
  else
    let row := Int.tdiv y t.getRowHeight
    match t.mModel with
    | none => .error Fault.nullDereference
    | some m => if row < 0 ∨ row ≥ m.getRows then .ok (-1) else .ok row

/-- The loop of `GuiTable::getColumnForX`, entered with the current `column`
and `delta`; it returns the value of `column` when the loop is left.  The
first argument bounds the number of iterations still to come. -/
def getColumnForXLoop (t : GuiTable) (m : TableModel) (x : Int) : Nat → Int → Int → Int
  | 0, column, _ => column
  | fuel + 1, column, delta =>
    if column < m.getColumns then
      let delta := delta + t.getColumnWidth column
      if x ≤ delta then column
      else getColumnForXLoop t m x fuel (column + 1) delta
    else column

/-- `GuiTable::getColumnForX`.  The loop starts at column 0 and runs at most
`getColumns` times. -/
def getColumnForX (t : GuiTable) (x : Int) : Except Fault Int :=
  match t.mModel with
  | none => .error Fault.nullDereference
  | some m =>
    let column := getColumnForXLoop t m x m.getColumns.toNat 0 0
    if column < 0 ∨ column ≥ m.getColumns then .ok (-1) else .ok column

/-- `GuiTable::mousePressed`. -/
def mousePressed (t : GuiTable) (mouseEvent : MouseEvent) : Except Fault GuiTable :=
  if mouseEvent.getButton = MouseButton.LEFT then
    match t.getRowForY mouseEvent.getY with
    | .error e => .error e
    | .ok row =>
      match t.getColumnForX mouseEvent.getX with
      | .error e => .error e
      | .ok column =>
        let t1 : GuiTable :=
          if row > -1 ∧ column > -1 then
            { t with mSelectedColumn := column, mSelectedRow := row }
          else t
        .ok { t1 with events := t1.events ++ [Event.distributeActionEvent] }
  else .ok t

/-- `GuiTable::modelUpdated`. -/
def modelUpdated (t : GuiTable) (completed : Bool) : Except Fault GuiTable :=
  if completed then
    match t.recomputeDimensions with
    | .error e => .error e
    | .ok t1 => t1.installActionListeners
  else .ok t.uninstallActionListeners

/-- `GuiTable::getWidgetAt`. -/
def getWidgetAt (t : GuiTable) (x y : Int) : Except Fault (Option Widget) :=
  match t.getRowForY y with
  | .error e => .error e
  | .ok row =>
    match t.getColumnForX x with
    | .error e => .error e
    | .ok column =>
      if (match t.mTopWidget with
          | some top => top.dimension.isPointInRect x y
          | none => false) then .ok t.mTopWidget
      else if row > -1 ∧ column > -1 then
        match t.mModel with
        | none => .error Fault.nullDereference
        | some m =>
          match m.getElementAt row column with
          | none => .error Fault.nullDereference
          | some w => if w.focusable then .ok (some w) else .ok none
      else .ok none

/-- The value of `x_offset` in `GuiTable::draw` when the inner loop reaches
column `c`: the widths of the columns before it, added up. -/
def drawXOffset (t : GuiTable) (c : Int) : Int :=
  (loopIndices c).foldl (fun x_offset i => x_offset + t.getColumnWidth i) 0

/-- The rectangle `GuiTable::draw` assigns to the cell in row `r` and column
`c` (a cell that is not the top widget): `x_offset` and `y_offset` as the
loops have accumulated them, the column width and the row height. -/
def drawBounds (t : GuiTable) (r c : Int) : Rectangle :=
  { x := t.drawXOffset c
    y := r * t.getRowHeight
    width := t.getColumnWidth c
    height := t.getRowHeight }

end GuiTable

/-! ## Reference definitions, written from the specification -/

/-- The bordered widths of the first `n` columns, added up: the sum over
`i < n` of `w_i + 1`.  The sum over `i ≤ c` is `cumulativeWidth m (c + 1)`. -/
def cumulativeWidth (m : TableModel) : Nat → Int
  | 0 => 0
  | n + 1 => cumulativeWidth m n + (m.getColumnWidth (n : Nat) + 1)

/-- Reference row lookup: `q = y / (h + 1)`, truncated toward zero, when
`0 ≤ q < rows`, and `-1` otherwise. -/
def referenceRowForY (m : TableModel) (y : Int) : Int :=
  let q := Int.tdiv y (m.getRowHeight + 1)
  if 0 ≤ q ∧ q < m.getRows then q else -1

/-- Reference column lookup: the least column `c` in `[0, columns)` with
`x ≤ cumulativeWidth m (c + 1)`, and `-1` when there is none. -/
def referenceColumnForX (m : TableModel) (x : Int) : Int :=
  match (List.range m.getColumns.toNat).find?
      (fun c => decide (x ≤ cumulativeWidth m (c + 1))) with
  | some c => (c : Int)
  | none => -1

/-- One forwarder for each cell of `m`, in row-major order, each carrying its
row, its column and the widget of its cell. -/
def RowMajorForwarders (m : TableModel) (l : List GuiTableActionListener) : Prop :=
  l.length = m.getRows.toNat * m.getColumns.toNat ∧
  ∀ i j : Nat, i < m.getRows.toNat → j < m.getColumns.toNat →
    l[i * m.getColumns.toNat + j]? =
      some { mRow := (i : Int), mColumn := (j : Int), mWidget := m.getElementAt i j }

/-- The selection of `after` is the selection of `before` with each index
above the last valid one replaced by the last valid one: each index is the
minimum of the stored index and the count minus one, so it is below the count,
and it is non-negative when the stored index was and the count is positive. -/
def SelectionClamped (m : TableModel) (before after : GuiTable) : Prop :=
  after.mSelectedRow = min before.mSelectedRow (m.getRows - 1) ∧
  after.mSelectedColumn = min before.mSelectedColumn (m.getColumns - 1) ∧
  after.mSelectedRow < m.getRows ∧
  after.mSelectedColumn < m.getColumns ∧
  (0 ≤ before.mSelectedRow → 0 < m.getRows → 0 ≤ after.mSelectedRow) ∧
  (0 ≤ before.mSelectedColumn → 0 < m.getColumns → 0 ≤ after.mSelectedColumn)

/-- The cell a forwarder stands for. -/
def GuiTableActionListener.cell (l : GuiTableActionListener) : Int × Int :=
  (l.mRow, l.mColumn)

/-! ## Sequences of calls -/

/-- The calls a client or the model makes on a table. -/
inductive Call where
  | setModel (new_model : Option TableModel)
  | modelUpdated (completed : Bool)
  | setSelected (row column : Int)
  | mousePressed (mouseEvent : MouseEvent)

/-- One call on the table. -/
def GuiTable.call (t : GuiTable) : Call → Except Fault GuiTable
  | .setModel new_model => t.setModel new_model
  | .modelUpdated completed => t.modelUpdated completed
  | .setSelected row column => .ok (t.setSelected row column)
  | .mousePressed mouseEvent => t.mousePressed mouseEvent

/-- A sequence of calls, first to last. -/
def GuiTable.run (t : GuiTable) : List Call → Except Fault GuiTable
  | [] => .ok t
  | c :: cs =>
    match t.call c with
    | .error e => .error e
    | .ok t1 => GuiTable.run t1 cs

/-- Construction followed by a sequence of calls. -/
def GuiTable.createAndRun (initial_model : Option TableModel) (calls : List Call) :
    Except Fault GuiTable :=
  match GuiTable.create initial_model with
  | .error e => .error e
  | .ok t => t.run calls

/-- The notification discipline of the model: a completed notification
arrives only while the forwarder list is empty, as it is after the "before"
notification. -/
def Call.InProtocol (t : GuiTable) : Call → Prop
  | .modelUpdated true => t.action_listeners = []
  | _ => True

/-- States reached from construction by calls that keep the notification
discipline.  Between a "before" and a "completed" notification (forwarder list
empty) the model object may change its contents. -/
inductive ProtocolReachable : GuiTable → Prop where
  | create {initial_model : Option TableModel} {t : GuiTable} :
      GuiTable.create initial_model = .ok t → ProtocolReachable t
  | call {t t1 : GuiTable} (c : Call) :
      ProtocolReachable t → c.InProtocol t → t.call c = .ok t1 → ProtocolReachable t1
  | modelChanged {t : GuiTable} {m changed : TableModel} :
      ProtocolReachable t → t.mModel = some m → t.action_listeners = [] →
      changed.ident = m.ident → ProtocolReachable { t with mModel := some changed }

/-! ## Concrete tables -/

/-- A focusable widget. -/
def exampleButton : Widget :=
  { ident := 0, focusable := true, dimension := { x := 0, y := 0, width := 0, height := 0 } }

/-- A widget that is not focusable. -/
def exampleLabel : Widget :=
  { ident := 1, focusable := false, dimension := { x := 0, y := 0, width := 0, height := 0 } }

/-- A model of 2 rows and 2 columns, row height 9 and column widths 9, with a
button in cell (0, 0) and labels elsewhere. -/
def exampleModel : TableModel :=
  { ident := 7
    getRows := 2
    getColumns := 2
    getRowHeight := 9
    getColumnWidth := fun _ => 9
    getElementAt := fun r c => if r = 0 ∧ c = 0 then some exampleButton else some exampleLabel }

/-- A model of 1 row and 1 column whose only cell is empty. -/
def exampleSparseModel : TableModel :=
  { ident := 8
    getRows := 1
    getColumns := 1
    getRowHeight := 9
    getColumnWidth := fun _ => 9
    getElementAt := fun _ _ => none }

/-- A model without rows and columns. -/
def exampleEmptyModel : TableModel :=
  { ident := 9
    getRows := 0
    getColumns := 0
    getRowHeight := 9
    getColumnWidth := fun _ => 9
    getElementAt := fun _ _ => none }

/-- A table state with the given model installed and its forwarders in
place. -/
def exampleTableOf (m : TableModel) : GuiTable :=
  { mLinewiseMode := false
    mModel := some m
    mSelectedRow := 0
    mSelectedColumn := 0
    mTopWidget := none
    action_listeners := GuiTable.newActionListeners m
    mWidth := 0
    mHeight := 0
    mFocusHandler := none
    events := [] }

/-- The table over `exampleModel`. -/
def exampleTable : GuiTable := exampleTableOf exampleModel

/-- The table `GuiTable::GuiTable` constructs over `exampleModel`. -/
def exampleCreated : GuiTable :=
  match GuiTable.create (some exampleModel) with
  | .ok t => t
  | .error _ => exampleTable

end Mana

/-! # Theorems -/

namespace Mana

open GuiTable

/-! ## Pixel to cell -/

theorem getColumnWidth_of_model {t : GuiTable} {m : TableModel} (hm : t.mModel = some m)
    (i : Int) : t.getColumnWidth i = m.getColumnWidth i + 1 := by
  simp [GuiTable.getColumnWidth, hm]

theorem getRowHeight_of_model {t : GuiTable} {m : TableModel} (hm : t.mModel = some m) :
    t.getRowHeight = m.getRowHeight + 1 := by
  simp [GuiTable.getRowHeight, hm]

/-- The scan stops at the least column whose right edge is not left of `x`. -/
theorem getColumnForXLoop_found {t : GuiTable} {m : TableModel} (hm : t.mModel = some m)
    (x : Int) (c : Nat) (hc : (c : Int) < m.getColumns)
    (hx : x ≤ cumulativeWidth m (c + 1)) :
    ∀ (fuel k : Nat), k ≤ c → c < k + fuel →
      (∀ j : Nat, k ≤ j → j < c → ¬ x ≤ cumulativeWidth m (j + 1)) →
      getColumnForXLoop t m x fuel (k : Int) (cumulativeWidth m k) = (c : Int) := by
  intro fuel
  induction fuel with
  | zero => intro k h1 h2; omega
  | succ fuel ih =>
    intro k h1 h2 hleast
    have hk : (k : Int) < m.getColumns := by omega
    have hd : cumulativeWidth m k + t.getColumnWidth (k : Int) = cumulativeWidth m (k + 1) := by
      rw [getColumnWidth_of_model hm]; rfl
    simp only [getColumnForXLoop, hk, if_true, hd]
    by_cases hxk : x ≤ cumulativeWidth m (k + 1)
    · have : k = c := by
        by_contra hne
        exact hleast k (le_refl k) (by omega) hxk
      rw [if_pos hxk, this]
    · have hne : k ≠ c := by
        intro h; subst h; exact hxk hx
      simp only [hxk, if_false]
      have := ih (k + 1) (by omega) (by omega) (fun j hj1 hj2 => hleast j (by omega) hj2)
      simpa using this

/-- Without such a column the scan runs off the end of the columns. -/
theorem getColumnForXLoop_none {t : GuiTable} {m : TableModel} (hm : t.mModel = some m)
    (x : Int) :
    ∀ (fuel k : Nat), m.getColumns ≤ (k : Int) + (fuel : Int) →
      (∀ j : Nat, k ≤ j → (j : Int) < m.getColumns → ¬ x ≤ cumulativeWidth m (j + 1)) →
      m.getColumns ≤ getColumnForXLoop t m x fuel (k : Int) (cumulativeWidth m k) := by
  intro fuel
  induction fuel with
  | zero => intro k h1 _; simpa [getColumnForXLoop] using h1
  | succ fuel ih =>
    intro k h1 hnone
    by_cases hk : (k : Int) < m.getColumns
    · have hd : cumulativeWidth m k + t.getColumnWidth (k : Int) = cumulativeWidth m (k + 1) := by
        rw [getColumnWidth_of_model hm]; rfl
      have hxk := hnone k (le_refl k) hk
      simp only [getColumnForXLoop, hk, if_true, hd, hxk, if_false]
      have := ih (k + 1) (by push_cast at h1 ⊢; omega) (fun j hj1 hj2 => hnone j (by omega) hj2)
      simpa using this
    · simp only [getColumnForXLoop, hk, if_false]
      omega

theorem getColumnForX_least {t : GuiTable} {m : TableModel} (hm : t.mModel = some m)
    (x : Int) (c : Nat) (hc : (c : Int) < m.getColumns)
    (hx : x ≤ cumulativeWidth m (c + 1))
    (hleast : ∀ j : Nat, j < c → ¬ x ≤ cumulativeWidth m (j + 1)) :
    t.getColumnForX x = .ok (c : Int) := by
  have h := getColumnForXLoop_found hm x c hc hx m.getColumns.toNat 0 (Nat.zero_le c)
    (by omega) (fun j _ hj => hleast j hj)
  simp only [Nat.cast_zero, cumulativeWidth] at h
  simp only [GuiTable.getColumnForX, hm, h]
  rw [if_neg (by omega)]

theorem getColumnForX_none {t : GuiTable} {m : TableModel} (hm : t.mModel = some m)
    (x : Int)
    (hnone : ∀ j : Nat, (j : Int) < m.getColumns → ¬ x ≤ cumulativeWidth m (j + 1)) :
    t.getColumnForX x = .ok (-1) := by
  have h := getColumnForXLoop_none hm x m.getColumns.toNat 0 (by omega)
    (fun j _ hj => hnone j hj)
  simp only [Nat.cast_zero, cumulativeWidth] at h
  simp only [GuiTable.getColumnForX, hm]
  rw [if_pos (Or.inr h)]

theorem referenceColumnForX_least (m : TableModel) (x : Int) (c : Nat)
    (hc : (c : Int) < m.getColumns) (hx : x ≤ cumulativeWidth m (c + 1))
    (hleast : ∀ j : Nat, j < c → ¬ x ≤ cumulativeWidth m (j + 1)) :
    referenceColumnForX m x = (c : Int) := by
  have : (List.range m.getColumns.toNat).find?
      (fun c => decide (x ≤ cumulativeWidth m (c + 1))) = some c := by
    rw [List.find?_range_eq_some]
    refine ⟨by simpa using hx, by simp; omega, fun j hj => by simpa using hleast j hj⟩
  simp [referenceColumnForX, this]

theorem referenceColumnForX_none (m : TableModel) (x : Int)
    (hnone : ∀ j : Nat, (j : Int) < m.getColumns → ¬ x ≤ cumulativeWidth m (j + 1)) :
    referenceColumnForX m x = -1 := by
  have : (List.range m.getColumns.toNat).find?
      (fun c => decide (x ≤ cumulativeWidth m (c + 1))) = none := by
    rw [List.find?_range_eq_none]
    intro i hi
    simpa using hnone i (by omega)
  simp [referenceColumnForX, this]

theorem getColumnForX_eq_reference {t : GuiTable} {m : TableModel} (hm : t.mModel = some m)
    (x : Int) : t.getColumnForX x = .ok (referenceColumnForX m x) := by
  by_cases h : ∃ c : Nat, (c : Int) < m.getColumns ∧ x ≤ cumulativeWidth m (c + 1)
  · classical
    have hc := Nat.find_spec h
    have hmin : ∀ j : Nat, j < Nat.find h → ¬ x ≤ cumulativeWidth m (j + 1) := by
      intro j hj hxj
      exact Nat.find_min h hj ⟨by omega, hxj⟩
    rw [getColumnForX_least hm x _ hc.1 hc.2 hmin,
      referenceColumnForX_least m x _ hc.1 hc.2 hmin]
  · have hnone : ∀ j : Nat, (j : Int) < m.getColumns → ¬ x ≤ cumulativeWidth m (j + 1) :=
      fun j hj hxj => h ⟨j, hj, hxj⟩
    rw [getColumnForX_none hm x hnone, referenceColumnForX_none m x hnone]

theorem getRowForY_eq_reference {t : GuiTable} {m : TableModel} (hm : t.mModel = some m)
    (hh : m.getRowHeight + 1 ≠ 0) (y : Int) :
    t.getRowForY y = .ok (referenceRowForY m y) := by
  simp only [GuiTable.getRowForY, getRowHeight_of_model hm, hh, if_false, hm, referenceRowForY]
  by_cases h : 0 ≤ Int.tdiv y (m.getRowHeight + 1) ∧ Int.tdiv y (m.getRowHeight + 1) < m.getRows
  · rw [if_neg (by omega), if_pos h]
  · rw [if_pos (by omega), if_neg h]

/-- A result of `getRowForY` is the sentinel or a row of the model. -/
theorem getRowForY_range {t : GuiTable} {y row : Int} (h : t.getRowForY y = .ok row) :
    row = -1 ∨ 0 ≤ row := by
  unfold GuiTable.getRowForY at h
  split at h
  · cases h
  · split at h
    · cases h
    · simp only at h
      split at h
      · injection h with h; exact Or.inl h.symm
      · injection h with h; subst h; right; omega

/-- A result of `getColumnForX` is the sentinel or a column of the model. -/
theorem getColumnForX_range {t : GuiTable} {x column : Int}
    (h : t.getColumnForX x = .ok column) : column = -1 ∨ 0 ≤ column := by
  unfold GuiTable.getColumnForX at h
  split at h
  · cases h
  · simp only at h
    split at h
    · injection h with h; exact Or.inl h.symm
    · injection h with h; subst h; right; omega

/-- C8: with a row height `h ≥ 0`, `getRowForY` and `getColumnForX` return
what the reference definitions give: the truncated quotient `y / (h + 1)` when
it is a row and `-1` otherwise, and the least column `c` with
`x ≤ sum over i ≤ c of (w_i + 1)`, or `-1` when there is none. -/
theorem pixel_to_cell_matches_reference (t : GuiTable) (m : TableModel) (x y : Int)
    (hm : t.mModel = some m) (hh : 0 ≤ m.getRowHeight) :
    t.getRowForY y = .ok (referenceRowForY m y) ∧
    t.getColumnForX x = .ok (referenceColumnForX m x) ∧
    (∀ c : Nat, (c : Int) < m.getColumns → x ≤ cumulativeWidth m (c + 1) →
      (∀ j : Nat, j < c → ¬ x ≤ cumulativeWidth m (j + 1)) →
      t.getColumnForX x = .ok (c : Int)) ∧
    ((∀ c : Nat, (c : Int) < m.getColumns → ¬ x ≤ cumulativeWidth m (c + 1)) →
      t.getColumnForX x = .ok (-1)) :=
  ⟨getRowForY_eq_reference hm (by omega) y, getColumnForX_eq_reference hm x,
    fun c hc hx hl => getColumnForX_least hm x c hc hx hl,
    fun hnone => getColumnForX_none hm x hnone⟩

theorem pixel_to_cell_matches_reference_witness :
    exampleTable.mModel = some exampleModel ∧ 0 ≤ exampleModel.getRowHeight ∧
    exampleTable.getRowForY 15 = .ok 1 ∧ exampleTable.getColumnForX 5 = .ok 0 ∧
    (exampleTable.getRowForY 15 = .ok (referenceRowForY exampleModel 15) ∧
    exampleTable.getColumnForX 5 = .ok (referenceColumnForX exampleModel 5) ∧
    (∀ c : Nat, (c : Int) < exampleModel.getColumns → 5 ≤ cumulativeWidth exampleModel (c + 1) →
      (∀ j : Nat, j < c → ¬ 5 ≤ cumulativeWidth exampleModel (j + 1)) →
      exampleTable.getColumnForX 5 = .ok (c : Int)) ∧
    ((∀ c : Nat, (c : Int) < exampleModel.getColumns →
        ¬ 5 ≤ cumulativeWidth exampleModel (c + 1)) →
      exampleTable.getColumnForX 5 = .ok (-1))) :=
  ⟨rfl, by decide, rfl, rfl,
    pixel_to_cell_matches_reference exampleTable exampleModel 5 15 rfl (by decide)⟩

/-- The iteration bound of `getColumnForX` is never what ends its loop: one
more permitted iteration changes nothing once the bound covers the columns
that are left. -/
theorem getColumnForXLoop_fuel_enough (t : GuiTable) (m : TableModel) (x : Int) :
    ∀ (fuel : Nat) (column delta : Int), m.getColumns ≤ column + (fuel : Int) →
      getColumnForXLoop t m x (fuel + 1) column delta =
        getColumnForXLoop t m x fuel column delta := by
  intro fuel
  induction fuel with
  | zero =>
    intro column delta h
    have hc : ¬ column < m.getColumns := by simp at h; omega
    simp [getColumnForXLoop, hc]
  | succ fuel ih =>
    intro column delta h
    rw [getColumnForXLoop, getColumnForXLoop.eq_def t m x (fuel + 1)]
    simp only
    split
    · split
      · rfl
      · exact ih (column + 1) _ (by push_cast at h; omega)
    · rfl

theorem cumulativeWidth_mono {m : TableModel} (hw : ∀ i : Int, 0 ≤ m.getColumnWidth i)
    {a b : Nat} (hab : a ≤ b) : cumulativeWidth m a ≤ cumulativeWidth m b := by
  induction hab with
  | refl => exact le_refl _
  | @step k _ ih =>
    have := hw (k : Nat)
    simp only [cumulativeWidth]
    omega

/-- The row lookup agrees with `draw` on every pixel row of a drawn cell. -/
theorem getRowForY_of_drawn_row {t : GuiTable} {m : TableModel} (hm : t.mModel = some m)
    (hh : 0 ≤ m.getRowHeight) (r y : Int) (hr0 : 0 ≤ r) (hr : r < m.getRows)
    (hy0 : r * (m.getRowHeight + 1) ≤ y) (hy : y < r * (m.getRowHeight + 1) + (m.getRowHeight + 1)) :
    t.getRowForY y = .ok r := by
  have hpos : 0 < m.getRowHeight + 1 := by omega
  have hy00 : 0 ≤ y := le_trans (Int.mul_nonneg hr0 (le_of_lt hpos)) hy0
  have hq : Int.tdiv y (m.getRowHeight + 1) = r := by
    rw [Int.tdiv_eq_ediv hy00 (le_of_lt hpos)]
    apply le_antisymm
    · have : y / (m.getRowHeight + 1) < r + 1 := by
        apply Int.ediv_lt_of_lt_mul hpos
        linarith
      omega
    · exact Int.le_ediv_of_mul_le hpos hy0
  rw [getRowForY_eq_reference hm (by omega) y]
  simp only [referenceRowForY, hq]
  rw [if_pos ⟨hr0, hr⟩]

/-- The column lookup agrees with `draw` on every pixel column of a drawn
cell except the leftmost one. -/
theorem getColumnForX_inside_drawn_column {t : GuiTable} {m : TableModel}
    (hm : t.mModel = some m) (hw : ∀ i : Int, 0 ≤ m.getColumnWidth i) (c : Nat) (x : Int)
    (hc : (c : Int) < m.getColumns)
    (hx0 : cumulativeWidth m c < x) (hx : x < cumulativeWidth m c + (m.getColumnWidth c + 1)) :
    t.getColumnForX x = .ok (c : Int) := by
  refine getColumnForX_least hm x c hc (by simp only [cumulativeWidth]; omega) ?_
  intro j hj hxj
  have := cumulativeWidth_mono hw (show j + 1 ≤ c by omega)
  omega

/-- The left edge of a drawn cell, in any column but the first, belongs to the
column before it. -/
theorem getColumnForX_left_edge {t : GuiTable} {m : TableModel}
    (hm : t.mModel = some m) (hw : ∀ i : Int, 0 ≤ m.getColumnWidth i) (c : Nat)
    (hc : ((c + 1 : Nat) : Int) < m.getColumns) :
    t.getColumnForX (cumulativeWidth m (c + 1)) = .ok (c : Int) := by
  refine getColumnForX_least hm _ c (by push_cast at hc; omega) (le_refl _) ?_
  intro j hj hxj
  have h1 := cumulativeWidth_mono hw (show j + 1 ≤ c by omega)
  have h2 := hw (c : Nat)
  simp only [cumulativeWidth] at hxj h1
  omega

theorem drawXOffset_eq {t : GuiTable} {m : TableModel} (hm : t.mModel = some m) (c : Nat) :
    t.drawXOffset (c : Int) = cumulativeWidth m c := by
  unfold GuiTable.drawXOffset loopIndices
  simp only [Int.toNat_ofNat]
  induction c with
  | zero => rfl
  | succ n ih =>
    rw [List.range_succ, List.map_append, List.foldl_append, ih]
    simp [cumulativeWidth, getColumnWidth_of_model hm]

/-! ## Mouse press and hit test -/

/-- C2: a left-button press at `(x, y)` on a table whose two lookups return
`row` and `column` selects exactly that cell when both differ from `-1`,
leaves the selection unchanged otherwise, and in either case adds exactly one
`distributeActionEvent` to the trace. -/
theorem mousePressed_left_selects (t : GuiTable) (m : TableModel) (x y row column : Int)
    (hm : t.mModel = some m)
    (hr : t.getRowForY y = .ok row) (hc : t.getColumnForX x = .ok column) :
    ∃ t1, t.mousePressed { getButton := MouseButton.LEFT, getX := x, getY := y } = .ok t1 ∧
      (row ≠ -1 ∧ column ≠ -1 → t1.mSelectedRow = row ∧ t1.mSelectedColumn = column) ∧
      (¬ (row ≠ -1 ∧ column ≠ -1) →
        t1.mSelectedRow = t.mSelectedRow ∧ t1.mSelectedColumn = t.mSelectedColumn) ∧
      t1.events = t.events ++ [Event.distributeActionEvent] ∧
      t1.mModel = some m ∧ t1.action_listeners = t.action_listeners := by
  have hrow := getRowForY_range hr
  have hcol := getColumnForX_range hc
  by_cases h : row > -1 ∧ column > -1
  · refine ⟨_, by simp only [GuiTable.mousePressed, hr, hc, if_true, if_pos h]; rfl, ?_⟩
    refine ⟨fun _ => ⟨rfl, rfl⟩, fun hn => ?_, rfl, hm, rfl⟩
    exact absurd ⟨by omega, by omega⟩ hn
  · refine ⟨_, by simp only [GuiTable.mousePressed, hr, hc, if_true, if_neg h]; rfl, ?_⟩
    refine ⟨fun hn => ?_, fun _ => ⟨rfl, rfl⟩, rfl, hm, rfl⟩
    exact absurd ⟨by omega, by omega⟩ h

theorem mousePressed_left_selects_witness :
    exampleTable.mModel = some exampleModel ∧
    exampleTable.getRowForY 15 = .ok 1 ∧ exampleTable.getColumnForX 5 = .ok 0 ∧
    ∃ t1, exampleTable.mousePressed { getButton := MouseButton.LEFT, getX := 5, getY := 15 }
        = .ok t1 ∧
      ((1 : Int) ≠ -1 ∧ (0 : Int) ≠ -1 → t1.mSelectedRow = 1 ∧ t1.mSelectedColumn = 0) ∧
      (¬ ((1 : Int) ≠ -1 ∧ (0 : Int) ≠ -1) →
        t1.mSelectedRow = exampleTable.mSelectedRow ∧
        t1.mSelectedColumn = exampleTable.mSelectedColumn) ∧
      t1.events = exampleTable.events ++ [Event.distributeActionEvent] ∧
      t1.mModel = some exampleModel ∧ t1.action_listeners = exampleTable.action_listeners :=
  ⟨rfl, rfl, rfl, mousePressed_left_selects exampleTable exampleModel 5 15 1 0 rfl rfl rfl⟩

/-- C7: on a table whose model has a widget in every cell, and whose two
lookups return `row` and `column`, `getWidgetAt x y` returns the top widget
when one is set and holds the point; otherwise, when `row` and `column` both
differ from `-1`, the widget of that cell if it is focusable and null if it is
not; otherwise null. -/
theorem getWidgetAt_result (t : GuiTable) (m : TableModel) (x y row column : Int)
    (hm : t.mModel = some m)
    (hfull : ∀ r c : Int, 0 ≤ r → r < m.getRows → 0 ≤ c → c < m.getColumns →
      m.getElementAt r c ≠ none)
    (hr : t.getRowForY y = .ok row) (hc : t.getColumnForX x = .ok column) :
    (∀ top, t.mTopWidget = some top → top.dimension.isPointInRect x y = true →
      t.getWidgetAt x y = .ok (some top)) ∧
    ((∀ top, t.mTopWidget = some top → top.dimension.isPointInRect x y = false) →
      (row ≠ -1 ∧ column ≠ -1 →
        ∃ w, m.getElementAt row column = some w ∧
          t.getWidgetAt x y = .ok (if w.focusable then some w else none)) ∧
      (¬ (row ≠ -1 ∧ column ≠ -1) → t.getWidgetAt x y = .ok none)) := by
  have hrow := getRowForY_range hr
  have hcol := getColumnForX_range hc
  refine ⟨fun top htop hin => ?_, fun hout => ⟨fun hne => ?_, fun hne => ?_⟩⟩
  · simp [GuiTable.getWidgetAt, hr, hc, htop, hin]
  · have hnot : (match t.mTopWidget with
        | some top => top.dimension.isPointInRect x y
        | none => false) = false := by
      cases htop : t.mTopWidget with
      | none => rfl
      | some top => simpa using hout top htop
    have hrow2 : 0 ≤ row ∧ row < m.getRows := by
      rw [getRowForY_eq_reference hm (by
        intro h0
        simp [GuiTable.getRowForY, getRowHeight_of_model hm, h0] at hr)] at hr
      injection hr with hr
      unfold referenceRowForY at hr
      simp only at hr
      split at hr
      · subst hr; assumption
      · exact absurd hr.symm hne.1
    have hcol2 : 0 ≤ column ∧ column < m.getColumns := by
      unfold GuiTable.getColumnForX at hc
      simp only [hm] at hc
      split at hc
      · injection hc with hc; exact absurd hc.symm hne.2
      · injection hc with hc; subst hc; omega
    cases hw : m.getElementAt row column with
    | none => exact absurd hw (hfull row column hrow2.1 hrow2.2 hcol2.1 hcol2.2)
    | some w =>
      refine ⟨w, rfl, ?_⟩
      have hgt : row > -1 ∧ column > -1 := ⟨by omega, by omega⟩
      simp only [GuiTable.getWidgetAt, hr, hc, hnot, hm, hw, if_pos hgt]
      cases w.focusable <;> simp
  · have hnot : (match t.mTopWidget with
        | some top => top.dimension.isPointInRect x y
        | none => false) = false := by
      cases htop : t.mTopWidget with
      | none => rfl
      | some top => simpa using hout top htop
    have hgt : ¬ (row > -1 ∧ column > -1) := by
      intro h; exact hne ⟨by omega, by omega⟩
    simp only [GuiTable.getWidgetAt, hr, hc, hnot, if_neg hgt]
    simp

theorem getWidgetAt_result_witness :
    exampleTable.mModel = some exampleModel ∧
    (∀ r c : Int, 0 ≤ r → r < exampleModel.getRows → 0 ≤ c → c < exampleModel.getColumns →
      exampleModel.getElementAt r c ≠ none) ∧
    exampleTable.getRowForY 5 = .ok 0 ∧ exampleTable.getColumnForX 5 = .ok 0 ∧
    exampleTable.getWidgetAt 5 5 = .ok (some exampleButton) ∧
    ((∀ top, exampleTable.mTopWidget = some top → top.dimension.isPointInRect 5 5 = true →
      exampleTable.getWidgetAt 5 5 = .ok (some top)) ∧
    ((∀ top, exampleTable.mTopWidget = some top → top.dimension.isPointInRect 5 5 = false) →
      ((0 : Int) ≠ -1 ∧ (0 : Int) ≠ -1 →
        ∃ w, exampleModel.getElementAt 0 0 = some w ∧
          exampleTable.getWidgetAt 5 5 = .ok (if w.focusable then some w else none)) ∧
      (¬ ((0 : Int) ≠ -1 ∧ (0 : Int) ≠ -1) → exampleTable.getWidgetAt 5 5 = .ok none))) :=
  have hfull : ∀ r c : Int, 0 ≤ r → r < exampleModel.getRows → 0 ≤ c →
      c < exampleModel.getColumns → exampleModel.getElementAt r c ≠ none := by
    intro r c _ _ _ _
    unfold exampleModel
    simp only
    split <;> simp
  ⟨rfl, hfull, rfl, rfl, rfl,
    getWidgetAt_result exampleTable exampleModel 5 5 0 0 rfl hfull rfl rfl⟩

/-- C10: on the table over the one-cell model whose cell is empty, with no top
widget, the point `(0, 0)` resolves to row 0 and column 0, and `getWidgetAt`
calls `isFocusable` through the null pointer instead of returning null. -/
theorem getWidgetAt_empty_cell_faults :
    (exampleTableOf exampleSparseModel).mTopWidget = none ∧
    (exampleTableOf exampleSparseModel).getRowForY 0 = .ok 0 ∧
    (exampleTableOf exampleSparseModel).getColumnForX 0 = .ok 0 ∧
    exampleSparseModel.getElementAt 0 0 = none ∧
    (exampleTableOf exampleSparseModel).getWidgetAt 0 0 = .error Fault.nullDereference ∧
    (exampleTableOf exampleSparseModel).getWidgetAt 0 0 ≠ .ok none :=
  ⟨rfl, rfl, rfl, rfl, rfl, by intro h; cases h⟩

/-- C3: in the table over `exampleModel` (row height 9, column widths 9) the
pixel `(10, 0)` lies in the rectangle `draw` assigns to the cell in row 0 and
column 1, and `getColumnForX 10` is column 0. -/
theorem click_on_left_edge_selects_previous_column :
    exampleTable.drawBounds 0 1 = { x := 10, y := 0, width := 10, height := 10 } ∧
    (exampleTable.drawBounds 0 1).isPointInRect 10 0 = true ∧
    cumulativeWidth exampleModel 1 = 10 ∧
    exampleTable.getRowForY 0 = .ok 0 ∧
    exampleTable.getColumnForX 10 = .ok 0 ∧
    exampleTable.getColumnForX 10 ≠ .ok 1 :=
  ⟨rfl, rfl, rfl, rfl, rfl, by intro h; cases h⟩

/-- C4: in the table over `exampleModel` (2 rows of height 9 + 1, 2 columns of
width 9 + 1) the coordinates `y = -1`, `x = -5` and `x = 20` lie outside the
grid, and the lookups return row 0, column 0 and column 1, not `-1`. -/
theorem lookups_outside_grid_return_cells :
    exampleModel.getRows * (exampleModel.getRowHeight + 1) = 20 ∧
    cumulativeWidth exampleModel 2 = 20 ∧
    exampleTable.getRowForY (-1) = .ok 0 ∧
    exampleTable.getColumnForX (-5) = .ok 0 ∧
    exampleTable.getColumnForX 20 = .ok 1 :=
  ⟨rfl, rfl, rfl, rfl, rfl⟩

/-! ## Selection clamping -/

theorem recomputeDimensions_ok {t : GuiTable} {m : TableModel} (hm : t.mModel = some m) :
    ∃ t1, t.recomputeDimensions = .ok t1 ∧ SelectionClamped m t t1 ∧
      t1.mModel = some m ∧ t1.action_listeners = t.action_listeners ∧
      t1.events = t.events ∧ t1.mFocusHandler = t.mFocusHandler ∧
      t1.mWidth = cumulativeWidth m m.getColumns.toNat ∧
      t1.mHeight = (m.getRowHeight + 1) * m.getRows := by
  simp only [GuiTable.recomputeDimensions, hm]
  refine ⟨_, rfl, ?_, rfl, rfl, rfl, rfl, ?_, ?_⟩
  · unfold SelectionClamped
    simp only
    refine ⟨?_, ?_, ?_, ?_, ?_, ?_⟩ <;> split <;> omega
  · show (loopIndices m.getColumns).foldl (fun width i => width + t.getColumnWidth i) 0 = _
    unfold loopIndices
    generalize m.getColumns.toNat = n
    induction n with
    | zero => rfl
    | succ n ih =>
      rw [List.range_succ, List.map_append, List.foldl_append, ih]
      simp [cumulativeWidth, getColumnWidth_of_model hm]
  · show t.getRowHeight * m.getRows = _
    rw [getRowHeight_of_model hm]

/-! ## Forwarder lists -/

/-- Row-major layout of a list built by two nested counting loops. -/
theorem nestedLoops_layout {α : Type} (f : Nat → Nat → α) (C : Nat) :
    ∀ R : Nat,
      ((List.range R).flatMap fun i => (List.range C).map (f i)).length = R * C ∧
      ∀ i j : Nat, i < R → j < C →
        ((List.range R).flatMap fun i => (List.range C).map (f i))[i * C + j]? = some (f i j) := by
  intro R
  induction R with
  | zero => exact ⟨by simp, fun i j hi _ => absurd hi (Nat.not_lt_zero i)⟩
  | succ R ih =>
    obtain ⟨hlen, hget⟩ := ih
    have hsplit : ((List.range (R + 1)).flatMap fun i => (List.range C).map (f i)) =
        ((List.range R).flatMap fun i => (List.range C).map (f i)) ++ (List.range C).map (f R) := by
      rw [List.range_succ, List.flatMap_append]
      simp
    rw [hsplit]
    refine ⟨by rw [List.length_append, hlen]; simp; ring, fun i j hi hj => ?_⟩
    by_cases hiR : i < R
    · have hlt : i * C + j < R * C := by
        calc i * C + j < i * C + C := by omega
          _ = (i + 1) * C := by ring
          _ ≤ R * C := Nat.mul_le_mul_right C hiR
      rw [List.getElem?_append_left (by rw [hlen]; exact hlt)]
      exact hget i j hiR hj
    · have hi2 : i = R := by omega
      subst hi2
      rw [List.getElem?_append_right (by rw [hlen]; omega), hlen]
      simp [hj]

theorem flatMap_map_left {α β γ : Type} (l : List α) (f : α → β) (g : β → List γ) :
    (l.map f).flatMap g = l.flatMap fun a => g (f a) := by
  induction l with
  | nil => rfl
  | cons a l ih => simp [List.flatMap_cons, ih]

theorem newActionListeners_eq (m : TableModel) :
    newActionListeners m =
      (List.range m.getRows.toNat).flatMap fun (i : Nat) =>
        (List.range m.getColumns.toNat).map fun (j : Nat) =>
          ({ mRow := (i : Int), mColumn := (j : Int), mWidget := m.getElementAt i j } :
            GuiTableActionListener) := by
  unfold newActionListeners loopIndices
  rw [flatMap_map_left]
  simp only [List.map_map]
  rfl

theorem newActionListeners_rowMajor (m : TableModel) :
    RowMajorForwarders m (newActionListeners m) := by
  rw [newActionListeners_eq]
  exact nestedLoops_layout
    (fun i j => ({ mRow := (i : Int), mColumn := (j : Int), mWidget := m.getElementAt i j } :
      GuiTableActionListener)) m.getColumns.toNat m.getRows.toNat

theorem newActionListeners_cells_nodup (m : TableModel) :
    ((newActionListeners m).map GuiTableActionListener.cell).Nodup := by
  rw [newActionListeners_eq, List.map_flatMap]
  simp only [List.map_map]
  refine List.nodup_flatMap.2 ⟨fun a _ => ?_, ?_⟩
  · refine List.Nodup.map ?_ (List.nodup_range _)
    intro j1 j2 h
    simp only [Function.comp_apply, GuiTableActionListener.cell, Prod.mk.injEq,
      Nat.cast_inj] at h
    exact h.2
  · refine (List.nodup_range m.getRows.toNat).imp ?_
    intro a b hab
    simp only [Function.onFun]
    rw [List.disjoint_left]
    intro p hpa hpb
    simp only [List.mem_map, Function.comp_apply, GuiTableActionListener.cell] at hpa hpb
    obtain ⟨j1, _, rfl⟩ := hpa
    obtain ⟨j2, _, h⟩ := hpb
    simp only [Prod.mk.injEq, Nat.cast_inj] at h
    exact hab h.1.symm

theorem installActionListeners_ok {t : GuiTable} {m : TableModel} (hm : t.mModel = some m) :
    ∃ t1, t.installActionListeners = .ok t1 ∧ t1.mModel = some m ∧
      t1.action_listeners = t.action_listeners ++ newActionListeners m ∧
      t1.mSelectedRow = t.mSelectedRow ∧ t1.mSelectedColumn = t.mSelectedColumn ∧
      t1.mWidth = t.mWidth ∧ t1.mHeight = t.mHeight ∧ t1.mFocusHandler = t.mFocusHandler ∧
      t1.events = t.events ++
        (newActionListeners m).flatMap GuiTableActionListener.createEvents ++
        focusHandlerEvents (some m) t.mFocusHandler := by
  simp only [GuiTable.installActionListeners, hm, GuiTable._setFocusHandler]
  exact ⟨_, rfl, rfl, rfl, rfl, rfl, rfl, rfl, rfl, rfl⟩

theorem setModel_ok (t : GuiTable) (m : TableModel) :
    ∃ t1, t.setModel (some m) = .ok t1 ∧ t1.mModel = some m ∧
      t1.action_listeners =
        (match t.mModel with
         | some _ => []
         | none => t.action_listeners) ++ newActionListeners m ∧
      SelectionClamped m t t1 ∧
      t1.events =
        (match t.mModel with
         | some old => t.events ++
            t.action_listeners.flatMap GuiTableActionListener.destroyEvents ++
            [Event.removeListener old.ident]
         | none => t.events) ++
        (newActionListeners m).flatMap GuiTableActionListener.createEvents ++
        focusHandlerEvents (some m) t.mFocusHandler ++ [Event.installListener m.ident] := by
  cases hold : t.mModel with
  | none =>
    obtain ⟨t3, h3, hm3, hl3, hr3, hc3, _, _, hf3, he3⟩ :=
      installActionListeners_ok (t := { t with mModel := some m }) (m := m) rfl
    obtain ⟨t4, h4, hs4, hm4, hl4, he4, _⟩ :=
      recomputeDimensions_ok
        (t := { t3 with events := t3.events ++ [Event.installListener m.ident] }) (m := m) hm3
    refine ⟨t4, ?_, hm4, ?_, ?_, ?_⟩
    · simp only [GuiTable.setModel, hold, h3, h4]
    · rw [hl4]; exact hl3
    · unfold SelectionClamped at hs4 ⊢
      simp only [hr3, hc3] at hs4
      exact hs4
    · rw [he4]; simp only [he3]
  | some old =>
    obtain ⟨t3, h3, hm3, hl3, hr3, hc3, _, _, hf3, he3⟩ :=
      installActionListeners_ok
        (t := { t with
                events := t.events ++
                  t.action_listeners.flatMap GuiTableActionListener.destroyEvents ++
                  [Event.removeListener old.ident]
                action_listeners := []
                mModel := some m }) (m := m) rfl
    obtain ⟨t4, h4, hs4, hm4, hl4, he4, _⟩ :=
      recomputeDimensions_ok
        (t := { t3 with events := t3.events ++ [Event.installListener m.ident] }) (m := m) hm3
    refine ⟨t4, ?_, hm4, ?_, ?_, ?_⟩
    · simp only [GuiTable.setModel, hold, GuiTable.uninstallActionListeners]
      rw [h3]
      exact h4
    · rw [hl4]; exact hl3
    · unfold SelectionClamped at hs4 ⊢
      simp only [hr3, hc3] at hs4
      exact hs4
    · rw [he4]; simp only [he3]

/-! ## Model replacement and model-change notifications -/

/-- C5: `setModel new` on a table that holds the model `old` deletes every
forwarder of the old list and deregisters the table from `old` before it
creates anything; afterwards the forwarder list is exactly the forwarders
created for `new`, one per cell in row-major order with the cell's row, column
and widget, and the table is registered on `new`. -/
theorem setModel_replaces_forwarders (t : GuiTable) (old new : TableModel)
    (hold : t.mModel = some old) :
    ∃ t1, t.setModel (some new) = .ok t1 ∧ t1.mModel = some new ∧
      RowMajorForwarders new t1.action_listeners ∧
      t1.events =
        t.events ++ t.action_listeners.flatMap GuiTableActionListener.destroyEvents ++
          [Event.removeListener old.ident] ++
          t1.action_listeners.flatMap GuiTableActionListener.createEvents ++
          focusHandlerEvents (some new) t.mFocusHandler ++
          [Event.installListener new.ident] := by
  obtain ⟨t1, h1, hm1, hl1, _, he1⟩ := setModel_ok t new
  simp only [hold, List.nil_append] at hl1 he1
  exact ⟨t1, h1, hm1, by rw [hl1]; exact newActionListeners_rowMajor new, by rw [he1, hl1]⟩

theorem setModel_replaces_forwarders_witness :
    exampleTable.mModel = some exampleModel ∧
    ∃ t1, exampleTable.setModel (some exampleSparseModel) = .ok t1 ∧
      t1.mModel = some exampleSparseModel ∧
      RowMajorForwarders exampleSparseModel t1.action_listeners ∧
      t1.events =
        exampleTable.events ++
          exampleTable.action_listeners.flatMap GuiTableActionListener.destroyEvents ++
          [Event.removeListener exampleModel.ident] ++
          t1.action_listeners.flatMap GuiTableActionListener.createEvents ++
          focusHandlerEvents (some exampleSparseModel) exampleTable.mFocusHandler ++
          [Event.installListener exampleSparseModel.ident] :=
  ⟨rfl, setModel_replaces_forwarders exampleTable exampleModel exampleSparseModel rfl⟩

/-- C6: `modelUpdated false` returns with an empty forwarder list and with
the model and the selection unchanged; and on any state with the forwarder
list so emptied and a model `m` (its contents possibly changed since),
`modelUpdated true` returns with exactly one forwarder per cell of `m`, in
row-major order with the cell's row, column and widget, after recomputing the
dimensions for `m`. -/
theorem modelUpdated_before_then_completed (t : GuiTable) :
    ∃ t1, t.modelUpdated false = .ok t1 ∧ t1.action_listeners = [] ∧
      t1.mModel = t.mModel ∧ t1.mSelectedRow = t.mSelectedRow ∧
      t1.mSelectedColumn = t.mSelectedColumn ∧
      ∀ (t2 : GuiTable) (m : TableModel),
        t2.action_listeners = t1.action_listeners → t2.mModel = some m →
        ∃ t3, t2.modelUpdated true = .ok t3 ∧ t3.mModel = some m ∧
          RowMajorForwarders m t3.action_listeners ∧
          SelectionClamped m t2 t3 ∧
          t3.mWidth = cumulativeWidth m m.getColumns.toNat ∧
          t3.mHeight = (m.getRowHeight + 1) * m.getRows := by
  refine ⟨t.uninstallActionListeners, rfl, rfl, rfl, rfl, rfl, fun t2 m hl hm => ?_⟩
  obtain ⟨u, hu, hsel, hmu, hlu, _, _, hw, hh⟩ := recomputeDimensions_ok hm
  obtain ⟨t3, h3, hm3, hl3, hr3, hc3, hw3, hh3, _⟩ := installActionListeners_ok hmu
  refine ⟨t3, by simp only [GuiTable.modelUpdated, if_true, hu, h3], hm3, ?_, ?_,
    by rw [hw3, hw], by rw [hh3, hh]⟩
  · have hnil : t2.action_listeners = [] := hl
    rw [hl3, hlu, hnil, List.nil_append]
    exact newActionListeners_rowMajor m
  · unfold SelectionClamped at hsel ⊢
    rw [hr3, hc3]
    exact hsel

theorem modelUpdated_before_then_completed_witness :
    ∃ t1, exampleTable.modelUpdated false = .ok t1 ∧ t1.action_listeners = [] ∧
      t1.mModel = exampleTable.mModel ∧ t1.mSelectedRow = exampleTable.mSelectedRow ∧
      t1.mSelectedColumn = exampleTable.mSelectedColumn ∧
      (({ t1 with mModel := some exampleSparseModel } : GuiTable).action_listeners =
          t1.action_listeners ∧
        ({ t1 with mModel := some exampleSparseModel } : GuiTable).mModel =
          some exampleSparseModel ∧
        ∃ t3, ({ t1 with mModel := some exampleSparseModel } : GuiTable).modelUpdated true
            = .ok t3 ∧
          t3.mModel = some exampleSparseModel ∧
          RowMajorForwarders exampleSparseModel t3.action_listeners ∧
          SelectionClamped exampleSparseModel { t1 with mModel := some exampleSparseModel } t3 ∧
          t3.mWidth = cumulativeWidth exampleSparseModel exampleSparseModel.getColumns.toNat ∧
          t3.mHeight = (exampleSparseModel.getRowHeight + 1) * exampleSparseModel.getRows) :=
  match modelUpdated_before_then_completed exampleTable with
  | ⟨t1, h1, h2, h3, h4, h5, h6⟩ =>
    ⟨t1, h1, h2, h3, h4, h5, rfl, rfl,
      h6 { t1 with mModel := some exampleSparseModel } exampleSparseModel rfl rfl⟩

/-! ## Selection clamping -/

/-- C1 (amended): `recomputeDimensions`, `setModel` and a completed
notification `modelUpdated true` each return with the selected row equal to
the minimum of the stored row and `rows - 1`, and the selected column equal to
the minimum of the stored column and `columns - 1`.  So the selected row is
below `rows` and the selected column below `columns`, and each is non-negative
when the stored index was non-negative and the count is positive. -/
theorem selection_clamped_from_above (t : GuiTable) (m : TableModel) :
    (t.mModel = some m → ∃ t1, t.recomputeDimensions = .ok t1 ∧ SelectionClamped m t t1) ∧
    (∃ t1, t.setModel (some m) = .ok t1 ∧ SelectionClamped m t t1) ∧
    (t.mModel = some m → ∃ t1, t.modelUpdated true = .ok t1 ∧ SelectionClamped m t t1) := by
  refine ⟨fun hm => ?_, ?_, fun hm => ?_⟩
  · obtain ⟨t1, h1, hs, _⟩ := recomputeDimensions_ok hm
    exact ⟨t1, h1, hs⟩
  · obtain ⟨t1, h1, _, _, hs, _⟩ := setModel_ok t m
    exact ⟨t1, h1, hs⟩
  · obtain ⟨u, hu, hsel, hmu, _⟩ := recomputeDimensions_ok hm
    obtain ⟨t3, h3, _, _, hr3, hc3, _⟩ := installActionListeners_ok hmu
    refine ⟨t3, by simp only [GuiTable.modelUpdated, if_true, hu, h3], ?_⟩
    unfold SelectionClamped at hsel ⊢
    rw [hr3, hc3]
    exact hsel

theorem selection_clamped_from_above_witness :
    (exampleTable.setSelected 5 7).mModel = some exampleModel ∧
    (∃ t1, (exampleTable.setSelected 5 7).recomputeDimensions = .ok t1 ∧
      SelectionClamped exampleModel (exampleTable.setSelected 5 7) t1) ∧
    (∃ t1, (exampleTable.setSelected 5 7).recomputeDimensions = .ok t1 ∧
      t1.mSelectedRow = 1 ∧ t1.mSelectedColumn = 1) ∧
    (∃ t1, (exampleTable.setSelected 5 7).modelUpdated true = .ok t1 ∧
      SelectionClamped exampleModel (exampleTable.setSelected 5 7) t1) :=
  have h := selection_clamped_from_above (exampleTable.setSelected 5 7) exampleModel
  ⟨rfl, h.1 rfl, ⟨_, rfl, rfl, rfl⟩, h.2.2 rfl⟩

/-- C1 (counterexample): a negative selection stored through `setSelected`
stays negative after `setModel` has recomputed the dimensions, and on a model
without rows and columns the selection becomes `(-1, -1)`. -/
theorem selection_not_clamped_from_below :
    (∃ t1, (exampleTable.setSelected (-3) (-2)).setModel (some exampleModel) = .ok t1 ∧
      t1.mModel = some exampleModel ∧ t1.mSelectedRow = -3 ∧ t1.mSelectedColumn = -2 ∧
      ¬ (0 ≤ t1.mSelectedRow ∧ t1.mSelectedRow < exampleModel.getRows) ∧
      ¬ (0 ≤ t1.mSelectedColumn ∧ t1.mSelectedColumn < exampleModel.getColumns)) ∧
    (∃ t1, (exampleTable.setSelected (-3) (-2)).recomputeDimensions = .ok t1 ∧
      t1.mSelectedRow = -3 ∧ t1.mSelectedColumn = -2) ∧
    (∃ t1, exampleTable.setModel (some exampleEmptyModel) = .ok t1 ∧
      t1.mModel = some exampleEmptyModel ∧ t1.mSelectedRow = -1 ∧ t1.mSelectedColumn = -1 ∧
      ¬ (0 ≤ t1.mSelectedRow ∧ t1.mSelectedRow < exampleEmptyModel.getRows)) :=
  ⟨⟨_, rfl, rfl, rfl, rfl, by decide, by decide⟩, ⟨_, rfl, rfl, rfl⟩,
    ⟨_, rfl, rfl, rfl, rfl, by decide⟩⟩

/-! ## Forwarders along sequences of calls -/

theorem mousePressed_keeps_forwarders {t t1 : GuiTable} {e : MouseEvent}
    (h : t.mousePressed e = .ok t1) :
    t1.mModel = t.mModel ∧ t1.action_listeners = t.action_listeners := by
  unfold GuiTable.mousePressed at h
  split at h
  · split at h
    · cases h
    · split at h
      · cases h
      · injection h with h
        subst h
        simp only
        split <;> exact ⟨rfl, rfl⟩
  · injection h with h
    subst h
    exact ⟨rfl, rfl⟩

theorem create_forwarders {initial_model : Option TableModel} {t : GuiTable}
    (h : GuiTable.create initial_model = .ok t) :
    ∃ m, t.mModel = some m ∧ t.action_listeners = newActionListeners m := by
  cases initial_model with
  | none => simp [GuiTable.create, GuiTable.setModel, GuiTable.installActionListeners] at h
  | some m =>
    unfold GuiTable.create at h
    simp only at h
    obtain ⟨t1, h1, hm1, hl1, _⟩ := setModel_ok
      { mLinewiseMode := false, mModel := none, mSelectedRow := 0, mSelectedColumn := 0,
        mTopWidget := none, action_listeners := [], mWidth := 0, mHeight := 0,
        mFocusHandler := none, events := [] } m
    rw [h1] at h
    injection h with h
    subst h
    exact ⟨m, hm1, by simpa using hl1⟩

/-- Under the notification discipline the forwarder list is empty or holds
exactly the forwarders created for the current model. -/
theorem protocolReachable_forwarders {t : GuiTable} (h : ProtocolReachable t) :
    ∃ m, t.mModel = some m ∧
      (t.action_listeners = [] ∨ t.action_listeners = newActionListeners m) := by
  induction h with
  | create hc =>
    obtain ⟨m, hm, hl⟩ := create_forwarders hc
    exact ⟨m, hm, Or.inr hl⟩
  | @call t t1 c _ hp hcall ih =>
    obtain ⟨m, hm, hl⟩ := ih
    cases c with
    | setModel new_model =>
      cases new_model with
      | none =>
        simp [GuiTable.call, GuiTable.setModel, GuiTable.installActionListeners] at hcall
      | some new =>
        obtain ⟨u, hu, hmu, hlu, _⟩ := setModel_ok t new
        simp only [GuiTable.call] at hcall
        rw [hu] at hcall
        injection hcall with hcall
        subst hcall
        refine ⟨new, hmu, Or.inr ?_⟩
        rw [hlu]
        simp [hm]
    | modelUpdated completed =>
      cases completed with
      | false =>
        simp only [GuiTable.call, GuiTable.modelUpdated] at hcall
        injection hcall with hcall
        subst hcall
        exact ⟨m, hm, Or.inl rfl⟩
      | true =>
        have hnil : t.action_listeners = [] := hp
        obtain ⟨u, hu, _, hmu, hlu, _⟩ := recomputeDimensions_ok hm
        obtain ⟨t3, h3, hm3, hl3, _⟩ := installActionListeners_ok hmu
        simp only [GuiTable.call, GuiTable.modelUpdated, if_true, hu, h3] at hcall
        injection hcall with hcall
        subst hcall
        refine ⟨m, hm3, Or.inr ?_⟩
        rw [hl3, hlu, hnil, List.nil_append]
    | setSelected row column =>
      simp only [GuiTable.call] at hcall
      injection hcall with hcall
      subst hcall
      exact ⟨m, hm, hl⟩
    | mousePressed mouseEvent =>
      simp only [GuiTable.call] at hcall
      obtain ⟨h1, h2⟩ := mousePressed_keeps_forwarders hcall
      exact ⟨m, by rw [h1]; exact hm, by rw [h2]; exact hl⟩
  | @modelChanged t m changed _ hm hnil _ _ =>
    exact ⟨changed, rfl, Or.inl hnil⟩

/-- C9 (amended): in every state reached from construction by `setModel`,
`modelUpdated false`, `setSelected` and `mousePressed` calls, by
`modelUpdated true` calls made while the forwarder list is empty, and by
changes of the model contents while the list is empty, the table holds a
model, no two forwarders stand for the same cell, and the list is no longer
than the number of cells of the model. -/
theorem forwarders_unique_in_protocol (t : GuiTable) (h : ProtocolReachable t) :
    ∃ m, t.mModel = some m ∧
      (t.action_listeners.map GuiTableActionListener.cell).Nodup ∧
      t.action_listeners.length ≤ m.getRows.toNat * m.getColumns.toNat ∧
      (0 ≤ m.getRows → 0 ≤ m.getColumns →
        (t.action_listeners.length : Int) ≤ m.getRows * m.getColumns) := by
  obtain ⟨m, hm, hl⟩ := protocolReachable_forwarders h
  have hlen : t.action_listeners.length ≤ m.getRows.toNat * m.getColumns.toNat := by
    rcases hl with hl | hl
    · rw [hl]; exact Nat.zero_le _
    · rw [hl]; exact le_of_eq (newActionListeners_rowMajor m).1
  refine ⟨m, hm, ?_, hlen, fun hr hc => ?_⟩
  · rcases hl with hl | hl
    · rw [hl]; exact List.nodup_nil
    · rw [hl]; exact newActionListeners_cells_nodup m
  · have h1 : ((m.getRows.toNat * m.getColumns.toNat : Nat) : Int) = m.getRows * m.getColumns := by
      rw [Nat.cast_mul, Int.toNat_of_nonneg hr, Int.toNat_of_nonneg hc]
    rw [← h1]
    exact_mod_cast hlen

theorem forwarders_unique_in_protocol_witness :
    ProtocolReachable exampleCreated ∧
    ∃ m, exampleCreated.mModel = some m ∧
      (exampleCreated.action_listeners.map GuiTableActionListener.cell).Nodup ∧
      exampleCreated.action_listeners.length ≤ m.getRows.toNat * m.getColumns.toNat ∧
      (0 ≤ m.getRows → 0 ≤ m.getColumns →
        (exampleCreated.action_listeners.length : Int) ≤ m.getRows * m.getColumns) :=
  have hr : ProtocolReachable exampleCreated :=
    ProtocolReachable.create (rfl : GuiTable.create (some exampleModel) = .ok exampleCreated)
  ⟨hr, forwarders_unique_in_protocol exampleCreated hr⟩

/-- C9 (counterexample): construction over `exampleModel` followed by one
`modelUpdated true` leaves two forwarders for every cell: eight forwarders
for four cells. -/
theorem repeated_completed_notification_duplicates :
    ∃ t, GuiTable.createAndRun (some exampleModel) [Call.modelUpdated true] = .ok t ∧
      t.mModel = some exampleModel ∧
      t.action_listeners.length = 8 ∧
      exampleModel.getRows * exampleModel.getColumns = 4 ∧
      ¬ (t.action_listeners.map GuiTableActionListener.cell).Nodup :=
  ⟨_, rfl, rfl, rfl, rfl, by decide⟩

end Mana
